import Mathlib

/-!
# Verification of the git-service orchestration layer

Shallow embedding of the repository's git-service module:
status wire parsing (`parseStatusPorcelainV1Z`), categorization
(`categorizeStatusEntries`), subprocess exit classification (`runGit`'s
close handler), pull/push argument construction, binary resolution and
the repository scanner, together with theorems settling the spec claims.

Strings are modelled as Lean `String` (JS UTF-16 indexing coincides with
code-point indexing on the ASCII data involved); JS array/`undefined`
idioms become `List`/`Option`.
-/

namespace TasksMCP

/-- One parsed porcelain-v1 status record, as built by
`parseStatusPorcelainV1Z` in the source: `{ path, x, y, origPath? }`. -/
structure StatusEntry where
  path : String
  x : Char
  y : Char
  origPath : Option String := none
deriving Repr, DecidableEq

/-- JS `token[n]` on a string known to be long enough (default is
irrelevant: callers guard `token.length >= 3`). -/
def charAt (s : String) (n : Nat) : Char :=
  s.toList.getD n ' '

/-- The source's rename/copy test:
`x === 'R' || x === 'C' || y === 'R' || y === 'C'`. -/
def isRenameOrCopy (x y : Char) : Bool :=
  x == 'R' || x == 'C' || y == 'R' || y == 'C'

/-- The loop body of `parseStatusPorcelainV1Z` over the token array:
tokens shorter than 3 characters are skipped; a rename/copy token
consumes the next token as the resulting path (`i += 1` inside the loop
plus the loop increment advances the cursor by 2), pushing an entry only
when that next token exists and is truthy; any other token yields one
entry whose path is `token.slice(3)`. -/
def parseTokens : List String → List StatusEntry
  | [] => []
  | token :: rest =>
    if token.length < 3 then parseTokens rest
    else
      let x := charAt token 0
      let y := charAt token 1
      let rawPath := token.drop 3
      if isRenameOrCopy x y then
        match rest with
        | [] => []
        | newPath :: rest2 =>
          if newPath ≠ "" then
            { path := newPath, x := x, y := y, origPath := some rawPath } :: parseTokens rest2
          else parseTokens rest2
      else { path := rawPath, x := x, y := y } :: parseTokens rest

/-- JS `String.prototype.split('\0')`, written by structural recursion
on the character list so that concrete inputs evaluate by `decide`. -/
def splitOnNulAux : List Char → List Char → List String
  | [], acc => [String.mk acc.reverse]
  | c :: rest, acc =>
    if c = '\x00' then String.mk acc.reverse :: splitOnNulAux rest []
    else splitOnNulAux rest (c :: acc)

/-- The token array of `parseStatusPorcelainV1Z`:
`output.split('\0').filter(Boolean)`. -/
def nulTokens (output : String) : List String :=
  (splitOnNulAux output.toList []).filter (fun t => t ≠ "")

/-- Source `parseStatusPorcelainV1Z(output)`: split on NUL, drop empty tokens
(`.filter(Boolean)`), then run the parsing loop. -/
def parseStatusPorcelainV1Z (output : String) : List StatusEntry :=
  parseTokens (nulTokens output)

/-- The five buckets produced by `categorizeStatusEntries`. -/
structure CategorizedStatus where
  staged : List StatusEntry
  unstaged : List StatusEntry
  untracked : List StatusEntry
  conflicted : List StatusEntry
  ignored : List StatusEntry
deriving Repr, DecidableEq

/-- Test `xy === '!!'` (the source compares the two-character string; we
compare the two characters). -/
def isIgnoredCode (e : StatusEntry) : Bool :=
  e.x == '!' && e.y == '!'

/-- Test `xy === '??'`. -/
def isUntrackedCode (e : StatusEntry) : Bool :=
  e.x == '?' && e.y == '?'

/-- Test `xy.includes('U') || xy === 'AA' || xy === 'DD'`. -/
def isConflictCode (e : StatusEntry) : Bool :=
  e.x == 'U' || e.y == 'U' || (e.x == 'A' && e.y == 'A') || (e.x == 'D' && e.y == 'D')

/-- The categorization loop of `categorizeStatusEntries`, before the
final sorts.  Recursing on the tail and consing preserves the source's
push order.  `entry.x && entry.x !== ' '` reduces to `x ≠ ' '` since a
parsed state character is never an empty string in this model. -/
def categorizeLoop : List StatusEntry → CategorizedStatus
  | [] => ⟨[], [], [], [], []⟩
  | e :: rest =>
    let r := categorizeLoop rest
    if isIgnoredCode e then { r with ignored := e :: r.ignored }
    else if isUntrackedCode e then { r with untracked := e :: r.untracked }
    else if isConflictCode e then { r with conflicted := e :: r.conflicted }
    else
      let r1 := if e.x != ' ' then { r with staged := e :: r.staged } else r
      if e.y != ' ' then { r1 with unstaged := e :: r1.unstaged } else r1

/-- The source's `sortByPath` comparator sorts each bucket with
`String.localeCompare`; the embedding uses code-point order on paths
(the data is ASCII). -/
def sortByPath (l : List StatusEntry) : List StatusEntry :=
  l.insertionSort (fun a b => a.path ≤ b.path)

/-- Source `categorizeStatusEntries(entries)`: classify every entry, then sort
each bucket by path. -/
def categorizeStatusEntries (entries : List StatusEntry) : CategorizedStatus :=
  let c := categorizeLoop entries
  { staged := sortByPath c.staged
    unstaged := sortByPath c.unstaged
    untracked := sortByPath c.untracked
    conflicted := sortByPath c.conflicted
    ignored := sortByPath c.ignored }

/-- Bucket predicate implied by the loop's precedence: an entry reaches
the `staged` push only past the ignored/untracked/conflicted branches and
with a non-blank index character. -/
def stagedPred (e : StatusEntry) : Bool :=
  !isIgnoredCode e && !isUntrackedCode e && !isConflictCode e && (e.x != ' ')

/-- Same precedence, non-blank worktree character. -/
def unstagedPred (e : StatusEntry) : Bool :=
  !isIgnoredCode e && !isUntrackedCode e && !isConflictCode e && (e.y != ' ')

/-- Untracked bucket predicate under the loop's precedence. -/
def untrackedPred (e : StatusEntry) : Bool :=
  !isIgnoredCode e && isUntrackedCode e

/-- Conflicted bucket predicate under the loop's precedence. -/
def conflictedPred (e : StatusEntry) : Bool :=
  !isIgnoredCode e && !isUntrackedCode e && isConflictCode e

theorem categorizeLoop_eq (l : List StatusEntry) :
    categorizeLoop l =
      ⟨l.filter stagedPred, l.filter unstagedPred, l.filter untrackedPred,
       l.filter conflictedPred, l.filter isIgnoredCode⟩ := by
  induction l with
  | nil => rfl
  | cons e rest ih =>
    simp only [categorizeLoop, ih]
    cases h1 : isIgnoredCode e <;> cases h2 : isUntrackedCode e <;>
      cases h3 : isConflictCode e <;> cases h4 : (e.x != ' ') <;> cases h5 : (e.y != ' ') <;>
      simp [h1, h2, h3, h4, h5, stagedPred, unstagedPred, untrackedPred, conflictedPred,
        List.filter_cons]

theorem mem_staged_iff (entries : List StatusEntry) (e : StatusEntry) :
    e ∈ (categorizeStatusEntries entries).staged ↔ e ∈ entries ∧ stagedPred e := by
  simp [categorizeStatusEntries, sortByPath, List.mem_insertionSort, categorizeLoop_eq,
    List.mem_filter]

theorem mem_unstaged_iff (entries : List StatusEntry) (e : StatusEntry) :
    e ∈ (categorizeStatusEntries entries).unstaged ↔ e ∈ entries ∧ unstagedPred e := by
  simp [categorizeStatusEntries, sortByPath, List.mem_insertionSort, categorizeLoop_eq,
    List.mem_filter]

theorem mem_untracked_iff (entries : List StatusEntry) (e : StatusEntry) :
    e ∈ (categorizeStatusEntries entries).untracked ↔ e ∈ entries ∧ untrackedPred e := by
  simp [categorizeStatusEntries, sortByPath, List.mem_insertionSort, categorizeLoop_eq,
    List.mem_filter]

theorem mem_conflicted_iff (entries : List StatusEntry) (e : StatusEntry) :
    e ∈ (categorizeStatusEntries entries).conflicted ↔ e ∈ entries ∧ conflictedPred e := by
  simp [categorizeStatusEntries, sortByPath, List.mem_insertionSort, categorizeLoop_eq,
    List.mem_filter]

theorem mem_ignored_iff (entries : List StatusEntry) (e : StatusEntry) :
    e ∈ (categorizeStatusEntries entries).ignored ↔ e ∈ entries ∧ isIgnoredCode e := by
  simp [categorizeStatusEntries, sortByPath, List.mem_insertionSort, categorizeLoop_eq,
    List.mem_filter]

/-- The six derived categories named by the claim: staged-only,
unstaged-only, both, untracked, conflicted, ignored. -/
inductive BucketKind where
  | stagedOnly | unstagedOnly | both | untracked | conflicted | ignored
deriving DecidableEq, Repr

/-- Membership of an entry in one of the six derived categories of a
categorized status. -/
def inBucketKind (e : StatusEntry) (c : CategorizedStatus) : BucketKind → Prop
  | .stagedOnly => e ∈ c.staged ∧ e ∉ c.unstaged
  | .unstagedOnly => e ∈ c.unstaged ∧ e ∉ c.staged
  | .both => e ∈ c.staged ∧ e ∈ c.unstaged
  | .untracked => e ∈ c.untracked
  | .conflicted => e ∈ c.conflicted
  | .ignored => e ∈ c.ignored

/-- The category an entry's state pair selects, mirroring the loop's
precedence; `none` exactly when both state characters are blank. -/
def kindOf (e : StatusEntry) : Option BucketKind :=
  if isIgnoredCode e then some .ignored
  else if isUntrackedCode e then some .untracked
  else if isConflictCode e then some .conflicted
  else if e.x != ' ' && e.y != ' ' then some .both
  else if e.x != ' ' then some .stagedOnly
  else if e.y != ' ' then some .unstagedOnly
  else none

instance (e : StatusEntry) (c : CategorizedStatus) (k : BucketKind) :
    Decidable (inBucketKind e c k) := by
  cases k <;> (simp only [inBucketKind]; infer_instance)

/-- All path fields over the five buckets. -/
def bucketPaths (c : CategorizedStatus) : List String :=
  (c.staged ++ c.unstaged ++ c.untracked ++ c.conflicted ++ c.ignored).map StatusEntry.path

theorem inBucketKind_iff_kindOf (entries : List StatusEntry) (e : StatusEntry)
    (he : e ∈ entries) (k : BucketKind) :
    inBucketKind e (categorizeStatusEntries entries) k ↔ kindOf e = some k := by
  cases k <;>
    simp only [inBucketKind, mem_staged_iff, mem_unstaged_iff, mem_untracked_iff,
      mem_conflicted_iff, mem_ignored_iff, he, true_and, not_and, kindOf] <;>
    cases h1 : isIgnoredCode e <;> cases h2 : isUntrackedCode e <;>
    cases h3 : isConflictCode e <;> cases h4 : (e.x != ' ') <;> cases h5 : (e.y != ' ') <;>
    simp [stagedPred, unstagedPred, untrackedPred, conflictedPred, h1, h2, h3, h4, h5]

theorem kindOf_eq_none_iff (e : StatusEntry) :
    kindOf e = none ↔ (e.x = ' ' ∧ e.y = ' ') := by
  by_cases hx : e.x = ' ' <;> by_cases hy : e.y = ' ' <;>
    simp [kindOf, hx, hy, isIgnoredCode, isUntrackedCode, isConflictCode] <;>
    split_ifs <;> simp_all

theorem preds_iff_kindOf (e : StatusEntry) :
    (stagedPred e ∨ unstagedPred e ∨ untrackedPred e ∨ conflictedPred e ∨ isIgnoredCode e)
      ↔ kindOf e ≠ none := by
  cases h1 : isIgnoredCode e <;> cases h2 : isUntrackedCode e <;>
    cases h3 : isConflictCode e <;> cases h4 : (e.x != ' ') <;> cases h5 : (e.y != ' ') <;>
    simp [stagedPred, unstagedPred, untrackedPred, conflictedPred, kindOf, h1, h2, h3, h4, h5]

theorem preds_or_iff (e : StatusEntry) :
    (stagedPred e ∨ unstagedPred e ∨ untrackedPred e ∨ conflictedPred e ∨ isIgnoredCode e)
      ↔ ¬(e.x = ' ' ∧ e.y = ' ') :=
  (preds_iff_kindOf e).trans (not_congr (kindOf_eq_none_iff e))

theorem mem_bucketPaths_iff (entries : List StatusEntry) (p : String) :
    p ∈ bucketPaths (categorizeStatusEntries entries) ↔
      ∃ e ∈ entries, ¬(e.x = ' ' ∧ e.y = ' ') ∧ e.path = p := by
  simp only [bucketPaths, List.mem_map, List.mem_append, mem_staged_iff, mem_unstaged_iff,
    mem_untracked_iff, mem_conflicted_iff, mem_ignored_iff]
  constructor
  · rintro ⟨a, ha, hp⟩
    refine ⟨a, by tauto, (preds_or_iff a).mp (by tauto), hp⟩
  · rintro ⟨a, ha, hnb, hp⟩
    have h := (preds_or_iff a).mpr hnb
    exact ⟨a, by tauto, hp⟩

/-- C1 (amended): for every NUL-delimited wire input, every entry
produced by `parseStatusPorcelainV1Z` whose state pair is not two blanks
is placed by `categorizeStatusEntries` into exactly one of the six
derived categories (staged-only, unstaged-only, both, untracked,
conflicted, ignored), an entry with two blank state characters is placed
in no bucket, and the union of the path fields over all buckets equals
the set of paths of parsed entries with a non-blank state pair.  (As
stated the claim fails: see the counterexample — a token of at least 3
characters with a blank state pair lands in no bucket, rename/copy
records take the entire following token as path, and a trailing
rename/copy token produces no entry at all.) -/
theorem parse_categorize_partition (s : String) :
    (∀ e ∈ parseStatusPorcelainV1Z s,
        (e.x = ' ' ∧ e.y = ' ' →
          ∀ k, ¬ inBucketKind e (categorizeStatusEntries (parseStatusPorcelainV1Z s)) k) ∧
        (¬(e.x = ' ' ∧ e.y = ' ') →
          ∃! k, inBucketKind e (categorizeStatusEntries (parseStatusPorcelainV1Z s)) k)) ∧
    (∀ p, p ∈ bucketPaths (categorizeStatusEntries (parseStatusPorcelainV1Z s)) ↔
        ∃ e ∈ parseStatusPorcelainV1Z s, ¬(e.x = ' ' ∧ e.y = ' ') ∧ e.path = p) := by
  constructor
  · intro e he
    constructor
    · intro hb k hk
      rw [inBucketKind_iff_kindOf _ _ he, (kindOf_eq_none_iff e).mpr hb] at hk
      exact Option.noConfusion hk
    · intro hb
      obtain ⟨k, hk⟩ : ∃ k, kindOf e = some k := by
        cases h : kindOf e with
        | none => exact absurd ((kindOf_eq_none_iff e).mp h) hb
        | some k => exact ⟨k, rfl⟩
      refine ⟨k, (inBucketKind_iff_kindOf _ _ he k).mpr hk, fun k' hk' => ?_⟩
      have h' := (inBucketKind_iff_kindOf _ _ he k').mp hk'
      rw [hk] at h'
      exact (Option.some_inj.mp h').symm
  · exact mem_bucketPaths_iff _

/-- Counterexample to C1 as stated: the wire input `"   a\0"` has a
single token of 4 characters with path payload `"a"`, yet its parsed
entry has both state characters blank, lands in no bucket, and the union
of bucket paths is empty rather than the payload set. -/
theorem parse_categorize_counterexample :
    nulTokens "   a\x00" = ["   a"] ∧
    parseStatusPorcelainV1Z "   a\x00" = [{ path := "a", x := ' ', y := ' ', origPath := none }] ∧
    categorizeStatusEntries (parseStatusPorcelainV1Z "   a\x00") = ⟨[], [], [], [], []⟩ := by
  decide

/-- Witness for the C1 theorem at the wire input `"M  a\0"`. -/
theorem parse_categorize_partition_witness :
    ({ path := "a", x := 'M', y := ' ', origPath := none } : StatusEntry)
        ∈ parseStatusPorcelainV1Z "M  a\x00" ∧
    (∃! k, inBucketKind { path := "a", x := 'M', y := ' ', origPath := none }
        (categorizeStatusEntries (parseStatusPorcelainV1Z "M  a\x00")) k) := by
  refine ⟨by decide, ?_⟩
  exact ((parse_categorize_partition "M  a\x00").1 _ (by decide)).2 (by decide)

/-- C2: when the parser reaches a token of at least 3 characters whose
index or worktree state character is `R` or `C` and a (non-empty) token
follows, it produces exactly one entry for the pair — `path` is the
entire following token, `originalPath` is the first token's payload —
and parsing continues after both tokens (the cursor advances by 2), so
the consumed token is never processed as a record of its own. -/
theorem parseTokens_rename_pair (t u : String) (rest : List String)
    (hlen : ¬ t.length < 3) (hrc : isRenameOrCopy (charAt t 0) (charAt t 1) = true)
    (hu : u ≠ "") :
    parseTokens (t :: u :: rest)
      = { path := u, x := charAt t 0, y := charAt t 1, origPath := some (t.drop 3) }
          :: parseTokens rest := by
  simp [parseTokens, hlen, hrc, hu]

theorem parseTokens_rename_pair_witness :
    parseTokens ["R  old.txt", "new.txt"]
      = [{ path := "new.txt", x := 'R', y := ' ', origPath := some "old.txt" }] := by
  rw [parseTokens_rename_pair _ _ _ (by decide) (by decide) (by decide)]
  decide

theorem parseTokens_invariants : (l : List String) → ∀ e ∈ parseTokens l,
      (e.origPath.isSome → isRenameOrCopy e.x e.y = true) ∧
      (e.origPath.isSome → e.path ≠ "")
  | [] => by simp [parseTokens]
  | [token] => by
    intro e he
    simp only [parseTokens] at he
    split at he
    · simp at he
    · split at he
      · simp at he
      · rcases List.mem_cons.mp he with h | h
        · subst h
          exact ⟨fun hs => by simp at hs, fun hs => by simp at hs⟩
        · simp [parseTokens] at h
  | token :: u :: rest => by
    intro e he
    simp only [parseTokens] at he
    split at he
    · exact parseTokens_invariants (u :: rest) e (by simp only [parseTokens]; exact he)
    · split at he
      · rename_i hrc
        split at he
        · rename_i hne
          rcases List.mem_cons.mp he with h | h
          · subst h
            exact ⟨fun _ => hrc, fun _ => hne⟩
          · exact parseTokens_invariants rest e h
        · exact parseTokens_invariants rest e he
      · rcases List.mem_cons.mp he with h | h
        · subst h
          exact ⟨fun hs => by simp at hs, fun hs => by simp at hs⟩
        · exact parseTokens_invariants (u :: rest) e (by simp only [parseTokens]; exact h)

/-- C3 (amended): every parsed entry has `originalPath` set only when a
state character is `R` or `C`, and such rename/copy entries always carry
a non-empty path.  (A non-rename token of exactly 3 characters yields an
empty path; see the counterexample.) -/
theorem parse_entry_origPath_invariant (s : String) :
    ∀ e ∈ parseStatusPorcelainV1Z s,
      (e.origPath.isSome → isRenameOrCopy e.x e.y = true) ∧
      (e.origPath.isSome → e.path ≠ "") :=
  parseTokens_invariants (nulTokens s)

/-- Witness for the C3 theorem at the wire input `"R  a\0b\0"`. -/
theorem parse_entry_origPath_invariant_witness :
    ({ path := "b", x := 'R', y := ' ', origPath := some "a" } : StatusEntry)
        ∈ parseStatusPorcelainV1Z "R  a\x00b\x00" ∧
    isRenameOrCopy 'R' ' ' = true ∧ ("b" : String) ≠ "" :=
  ⟨by decide,
   (parse_entry_origPath_invariant "R  a\x00b\x00"
      { path := "b", x := 'R', y := ' ', origPath := some "a" } (by decide)).1 (by decide),
   (parse_entry_origPath_invariant "R  a\x00b\x00"
      { path := "b", x := 'R', y := ' ', origPath := some "a" } (by decide)).2 (by decide)⟩

/-- Counterexample to C3 as stated: the 3-character token `"AAA"` is not
skipped (length is exactly 3) and produces an entry whose `path` is the
empty string. -/
theorem parse_empty_path_counterexample :
    parseStatusPorcelainV1Z "AAA\x00"
      = [{ path := "", x := 'A', y := 'A', origPath := none }] := by
  decide

/-- Counterexample to C8 as stated: on the wire input `"??\0newfile.txt\0"`
the token `"??"` is shorter than 3 characters and is skipped, and
`"newfile.txt"` is parsed as a record with states `'n'`/`'e'` and path
`"file.txt"`, so it lands in staged and unstaged — the untracked bucket
is empty. -/
theorem scenario_untracked_counterexample :
    categorizeStatusEntries (parseStatusPorcelainV1Z "??\x00newfile.txt\x00")
      = ⟨[{ path := "file.txt", x := 'n', y := 'e', origPath := none }],
         [{ path := "file.txt", x := 'n', y := 'e', origPath := none }], [], [], []⟩ := by
  decide

/-- C8 (amended): with the porcelain separator inside the token —
`"?? newfile.txt\0"` — parsing and categorizing yields exactly one
untracked entry and all other buckets empty. -/
theorem scenario_untracked_amended :
    categorizeStatusEntries (parseStatusPorcelainV1Z "?? newfile.txt\x00")
      = ⟨[], [], [{ path := "newfile.txt", x := '?', y := '?', origPath := none }], [], []⟩ := by
  decide


/-- JS `String.prototype.trim`, structurally (drop whitespace from both
ends), so concrete inputs evaluate by `decide`. -/
def jsTrim (s : String) : String :=
  String.mk (((s.toList.dropWhile Char.isWhitespace).reverse.dropWhile Char.isWhitespace).reverse)

/-- JS string `||`: first operand unless it is empty (falsy). -/
def jsOr (a b : String) : String :=
  if a ≠ "" then a else b

/-- The fallback chain building the failure message in `runGit`'s close
handler: `stderr.trim() || stdout.trim() || \x60git exited with code N\x60`. -/
def gitExitFallbackMessage (code : Int) (stdout stderr : String) : String :=
  jsOr (jsTrim stderr) (jsOr (jsTrim stdout) ("git exited with code " ++ toString code))

/-- Substring test on character lists (JS `String.prototype.includes`). -/
def hasSubList (pat : List Char) : List Char → Bool
  | [] => pat.isEmpty
  | c :: rest => pat.isPrefixOf (c :: rest) || hasSubList pat rest

/-- JS `msg.includes(pat)`. -/
def containsSub (s pat : String) : Bool :=
  hasSubList pat.toList s.toList

/-- The marker substring detected by `runGit`. -/
def notARepoMarker : String := "not a git repository"

/-- The user-facing replacement error raised by `runGit`. -/
def notARepoMessage : String :=
  "Not a git repository. Set the repo path to a folder inside a git repo (or the repo root)."

/-- The `close` handler of `runGit`: resolve with the captured streams
when the exit code is accepted, otherwise reject with the fallback
message, substituted by the not-a-repository message when the marker
substring occurs in it. -/
def runGitClose (okCodes : List Int) (code : Int) (stdout stderr : String) :
    Except String (String × String) :=
  if code ∈ okCodes then .ok (stdout, stderr)
  else
    let msg := gitExitFallbackMessage code stdout stderr
    if containsSub msg notARepoMarker then .error notARepoMessage
    else .error msg

/-- C4: when a git subprocess exits with a code not in the accepted
list, the raised error message is the trimmed stderr if non-empty, else
the trimmed stdout if non-empty, else the generic `git exited with code
N`; and whenever that message contains the not-a-repository marker
substring it is replaced with the user-facing not-a-repository message
naming the remedy. -/
theorem runGitClose_failure_message (okCodes : List Int) (code : Int)
    (stdout stderr : String) (h : code ∉ okCodes) :
    runGitClose okCodes code stdout stderr = .error (
      let base := if jsTrim stderr ≠ "" then jsTrim stderr
        else if jsTrim stdout ≠ "" then jsTrim stdout
        else "git exited with code " ++ toString code
      if containsSub base notARepoMarker then notARepoMessage else base) := by
  simp only [runGitClose, gitExitFallbackMessage, jsOr, if_neg h, apply_ite Except.error]

theorem runGitClose_failure_message_witness :
    ((1 : Int) ∉ ([0] : List Int)) ∧
    runGitClose [0] 1 "" " boom\n" = .error "boom" ∧
    runGitClose [0] 1 "" "fatal: not a git repository (or any parent)" = .error notARepoMessage := by
  refine ⟨by decide, ?_, ?_⟩
  · rw [runGitClose_failure_message _ _ _ _ (by decide)]; rfl
  · rw [runGitClose_failure_message _ _ _ _ (by decide)]; rfl

/-- JS truthy-guarded single push argument (`if (v) args.push(v)`). -/
def optArg : Option String → List String
  | some s => if s ≠ "" then [s] else []
  | none => []

/-- Models `if (extraHeader) args.push('-c', 'http.extraHeader=' + extraHeader)`. -/
def headerArgs : Option String → List String
  | some h => if h ≠ "" then ["-c", "http.extraHeader=" ++ h] else []
  | none => []

/-- The reconcile-strategy flags chosen by `gitPull`. -/
def gitPullStrategyArgs (rebase ffOnly : Bool) : List String :=
  if ffOnly then ["--ff-only"]
  else if rebase then ["--rebase=true", "--ff"]
  else ["--rebase=false", "--ff"]

/-- The full argv built by `gitPull`. -/
def gitPullArgs (git : String) (extraHeader : Option String) (rebase ffOnly : Bool)
    (remote branch : Option String) : List String :=
  [git] ++ headerArgs extraHeader ++ ["pull"] ++ gitPullStrategyArgs rebase ffOnly
    ++ optArg remote ++ optArg branch

/-- From `normalizeArgs('git_pull')`: `rebase = Boolean(input.rebase || false)`. -/
def normPullRebase (raw : Option Bool) : Bool :=
  raw.getD false

/-- From `normalizeArgs('git_pull')`: `ffOnly = input.ffOnly !== false`. -/
def normPullFfOnly (raw : Option Bool) : Bool :=
  raw != some false

/-- C5: `gitPull` (with flags produced by `normalizeArgs`) runs the pull
fast-forward-only unless the caller explicitly selects rebase or merge
by passing `ffOnly: false`, in which case the selected strategy —
`--rebase=true` or `--rebase=false`, each with `--ff` — is used
instead. -/
theorem gitPull_strategy_selection (git : String) (hdr : Option String)
    (rebaseRaw ffOnlyRaw : Option Bool) (remote branch : Option String) :
    gitPullArgs git hdr (normPullRebase rebaseRaw) (normPullFfOnly ffOnlyRaw) remote branch
      = [git] ++ headerArgs hdr ++ ["pull"]
          ++ (if ffOnlyRaw = some false then
                (if rebaseRaw = some true then ["--rebase=true", "--ff"]
                 else ["--rebase=false", "--ff"])
              else ["--ff-only"])
          ++ optArg remote ++ optArg branch := by
  rcases ffOnlyRaw with _ | ff
  · simp [gitPullArgs, gitPullStrategyArgs, normPullRebase, normPullFfOnly]
  · cases ff
    · rcases rebaseRaw with _ | rb
      · simp [gitPullArgs, gitPullStrategyArgs, normPullRebase, normPullFfOnly]
      · cases rb <;>
          simp [gitPullArgs, gitPullStrategyArgs, normPullRebase, normPullFfOnly]
    · simp [gitPullArgs, gitPullStrategyArgs, normPullRebase, normPullFfOnly]

/-- Standard base64 alphabet, indexed. -/
def base64Char (n : Nat) : Char :=
  "ABCDEFGHIJKLMNOPQRSTUVWXYZabcdefghijklmnopqrstuvwxyz0123456789+/".toList.getD n '='

/-- Base64 of a byte list (`Buffer.from(..).toString('base64')`). -/
def base64Bytes : List Nat → List Char
  | [] => []
  | [b1] =>
    [base64Char (b1 / 4), base64Char (b1 % 4 * 16), '=', '=']
  | [b1, b2] =>
    [base64Char (b1 / 4), base64Char (b1 % 4 * 16 + b2 / 16), base64Char (b2 % 16 * 4), '=']
  | b1 :: b2 :: b3 :: rest =>
    base64Char (b1 / 4) :: base64Char (b1 % 4 * 16 + b2 / 16)
      :: base64Char (b2 % 16 * 4 + b3 / 64) :: base64Char (b3 % 64) :: base64Bytes rest

/-- Source `toBasicAuthHeader`: base64-encode `user:pass` over UTF-8 and prefix
the basic-auth scheme. -/
def toBasicAuthHeader (username token : String) : String :=
  let user := if username ≠ "" then username else "x-access-token"
  "Authorization: Basic "
    ++ String.mk (base64Bytes ((user ++ ":" ++ token).toUTF8.toList.map (fun b => b.toNat)))

/-- An environment giving each spawned git invocation's outcome: `.ok`
carries the captured stdout, `.error` a failure message. -/
def GitEnv : Type := List String → Except String String

/-- Source `guessRemoteForPush`: try `config --get remote.pushDefault`, then the
upstream's remote, swallowing each step's failure; also returns the
invocations issued. -/
def guessRemoteForPush (git : String) (env : GitEnv) : Option String × List (List String) :=
  let a1 := [git, "config", "--get", "remote.pushDefault"]
  let a2 := [git, "rev-parse", "--abbrev-ref", "--symbolic-full-name", "@{u}"]
  let step2 : Option String × List (List String) :=
    match env a2 with
    | .ok out =>
      let upstream := jsTrim out
      if upstream ≠ "" ∧ containsSub upstream "/" then
        (some ((upstream.splitOn "/").headD ""), [a1, a2])
      else (none, [a1, a2])
    | .error _ => (none, [a1, a2])
  match env a1 with
  | .ok out =>
    let v := jsTrim out
    if v ≠ "" then (some v, [a1]) else step2
  | .error _ => step2

/-- Runs `remote get-url --push`, falling back to `remote get-url`, falling
back to the empty string. -/
def resolvePushUrl (git remoteForAuth : String) (env : GitEnv) :
    String × List (List String) :=
  let a1 := [git, "remote", "get-url", "--push", remoteForAuth]
  let a2 := [git, "remote", "get-url", remoteForAuth]
  match env a1 with
  | .ok out => (jsTrim out, [a1])
  | .error _ =>
    match env a2 with
    | .ok out => (jsTrim out, [a1, a2])
    | .error _ => ("", [a1, a2])

/-- Remote-URL resolution for token-auth push: `remoteForAuth` is
`remote || guessRemoteForPush() || 'origin'`; returns
(remoteForAuth, resolved url, invocations issued). -/
def pushAuthResolution (git : String) (remote : Option String) (env : GitEnv) :
    String × String × List (List String) :=
  let (remoteForAuth, tGuess) :=
    if remote.getD "" ≠ "" then (remote.getD "", ([] : List (List String)))
    else
      let (g, tg) := guessRemoteForPush git env
      (match g with
       | some v => if v ≠ "" then v else "origin"
       | none => "origin", tg)
  let (url, tUrl) := resolvePushUrl git remoteForAuth env
  (remoteForAuth, url, tGuess ++ tUrl)

/-- Test `remoteUrl.startsWith('http://') || remoteUrl.startsWith('https://')`. -/
def isHttpUrl (u : String) : Bool :=
  u.startsWith "http://" || u.startsWith "https://"

/-- The transport-mismatch error raised by `gitPush`. -/
def pushTransportMismatchMessage : String :=
  "Remote is not HTTPS; token auth is only supported for HTTPS remotes. Configure an HTTPS remote or push via SSH."

/-- The final push argv built by `gitPush`. -/
def gitPushArgs (git : String) (extraHeader : Option String) (setUpstream : Bool)
    (remote branch : Option String) : List String :=
  [git] ++ headerArgs extraHeader ++ ["push"] ++ (if setUpstream then ["--set-upstream"] else [])
    ++ optArg remote ++ optArg branch

/-- Source `gitPush`, modelled as the sequence of git invocations it issues
(the trace) plus its outcome: an error message, or the argv of the push
invocation it ran. -/
def gitPushTrace (git : String) (remote branch : Option String) (setUpstream : Bool)
    (token : Option String) (env : GitEnv) :
    List (List String) × Except String (List String) :=
  let cleanToken := jsTrim (token.getD "")
  if cleanToken ≠ "" then
    let (_, url, tAuth) := pushAuthResolution git remote env
    if ¬ isHttpUrl url then (tAuth, .error pushTransportMismatchMessage)
    else
      let hdr := toBasicAuthHeader "x-access-token" cleanToken
      let args := gitPushArgs git (some hdr) setUpstream remote branch
      (tAuth ++ [args], match env args with | .ok _ => .ok args | .error e => .error e)
  else
    let args := gitPushArgs git none setUpstream remote branch
    ([args], match env args with | .ok _ => .ok args | .error e => .error e)

/-- Is this argv a push invocation (the subcommand right after the
binary, or after a `-c key=value` pair, is `push`)? -/
def isPushInvocation (a : List String) : Bool :=
  a.getD 1 "" == "push" || (a.getD 1 "" == "-c" && a.getD 3 "" == "push")

theorem guessRemoteForPush_no_push (git : String) (env : GitEnv) :
    ∀ a ∈ (guessRemoteForPush git env).2, isPushInvocation a = false := by
  intro a ha
  simp only [guessRemoteForPush] at ha
  repeat' split at ha
  all_goals simp only [List.mem_cons, List.not_mem_nil, or_false] at ha
  all_goals (rcases ha with rfl | rfl <;> rfl)

theorem resolvePushUrl_no_push (git r : String) (env : GitEnv) :
    ∀ a ∈ (resolvePushUrl git r env).2, isPushInvocation a = false := by
  intro a ha
  simp only [resolvePushUrl] at ha
  repeat' split at ha
  all_goals simp only [List.mem_cons, List.not_mem_nil, or_false] at ha
  all_goals (rcases ha with rfl | rfl <;> rfl)

theorem pushAuthResolution_no_push (git : String) (remote : Option String) (env : GitEnv) :
    ∀ a ∈ (pushAuthResolution git remote env).2.2, isPushInvocation a = false := by
  intro a ha
  simp only [pushAuthResolution] at ha
  by_cases hr : remote.getD "" ≠ ""
  · rw [if_pos hr] at ha
    simp only [List.nil_append] at ha
    exact resolvePushUrl_no_push git _ env a ha
  · rw [if_neg hr] at ha
    rcases hg : guessRemoteForPush git env with ⟨g, tg⟩
    rw [hg] at ha
    simp only [List.mem_append] at ha
    rcases ha with h | h
    · have hh := guessRemoteForPush_no_push git env a
      rw [hg] at hh
      exact hh h
    · exact resolvePushUrl_no_push git _ env a h

/-- C6: a `gitPush` call carrying a non-empty token whose resolved push
URL does not start with `http://` or `https://` fails with the
transport-mismatch error, and its invocation trace contains no push
subprocess invocation at all. -/
theorem gitPush_transport_mismatch (git : String) (remote branch : Option String)
    (su : Bool) (token : Option String) (env : GitEnv)
    (htok : jsTrim (token.getD "") ≠ "")
    (hurl : isHttpUrl (pushAuthResolution git remote env).2.1 = false) :
    (gitPushTrace git remote branch su token env).2 = .error pushTransportMismatchMessage ∧
    ∀ a ∈ (gitPushTrace git remote branch su token env).1, isPushInvocation a = false := by
  rcases hres : pushAuthResolution git remote env with ⟨rfa, url, tr⟩
  have hurl2 : isHttpUrl url = false := by
    rw [hres] at hurl
    exact hurl
  constructor
  · simp [gitPushTrace, hres, htok, hurl2]
  · intro a ha
    have hh := pushAuthResolution_no_push git remote env a
    rw [hres] at hh
    apply hh
    simpa [gitPushTrace, hres, htok, hurl2] using ha

/-- Witness for the C6 theorem: token `"t"` against an environment
where every git query fails, so the resolved URL is empty. -/
theorem gitPush_transport_mismatch_witness :
    (jsTrim ((some "t").getD "") ≠ "") ∧
    ((gitPushTrace "git" none none false (some "t") (fun _ => .error "x")).2
        = .error pushTransportMismatchMessage ∧
     ∀ a ∈ (gitPushTrace "git" none none false (some "t") (fun _ => .error "x")).1,
       isPushInvocation a = false) :=
  ⟨by decide,
   gitPush_transport_mismatch "git" none none false (some "t") (fun _ => .error "x")
     (by decide) (by decide)⟩

/-- Failure modes of a `runGit` version probe: a spawn ENOENT (the
configured binary does not exist), which `runGit` maps to its
executable-not-found message, or any other failure with its own message. -/
inductive ProbeErr where
  | enoent
  | failure (msg : String)
deriving DecidableEq, Repr

/-- Message raised by `runGit` for a spawn ENOENT. -/
def spawnEnoentMessage : String :=
  "Git executable not found (spawn ENOENT). Install git or set ASSISTOS_GIT_BINARY to the full path of the git binary."

/-- Message raised by `detectGitBinary` when no candidate responds. -/
def gitNotFoundMessage : String :=
  "Git executable not found. Install git or set ASSISTOS_GIT_BINARY to the full path of the git binary."

/-- The message carried by a failed version probe. -/
def probeErrMessage : ProbeErr → String
  | .enoent => spawnEnoentMessage
  | .failure m => m

/-- The fixed fallback candidate list probed by `detectGitBinary`. -/
def gitCandidates : List String :=
  ["git", "/usr/bin/git", "/bin/git", "/usr/local/bin/git", "/opt/homebrew/bin/git"]

/-- The candidate loop of `detectGitBinary`: probe candidates in order,
return the first success, each failure falls through; records probed
paths. -/
def probeCandidates (probe : String → Except ProbeErr Unit) :
    List String → List String × Except String String
  | [] => ([], .error gitNotFoundMessage)
  | c :: rest =>
    match probe c with
    | .ok _ => ([c], .ok c)
    | .error _ =>
      let (t, r) := probeCandidates probe rest
      (c :: t, r)

/-- Source `detectGitBinary`, modelled as (probed paths, outcome): a configured
override is probed alone, its failure propagating as the probe's error;
otherwise the candidate list is scanned. -/
def detectGitBinaryTrace (configured : Option String)
    (probe : String → Except ProbeErr Unit) : List String × Except String String :=
  let cfg := configured.getD ""
  if cfg ≠ "" then
    match probe cfg with
    | .ok _ => ([cfg], .ok cfg)
    | .error e => ([cfg], .error (probeErrMessage e))
  else probeCandidates probe gitCandidates

/-- Counterexample to C7 as stated: a configured override whose version
probe fails for a reason other than a spawn ENOENT (here `"permission
denied"`) makes resolution fail with that probe error, which is neither
of the executable-not-found messages. -/
theorem detect_override_counterexample :
    (detectGitBinaryTrace (some "/broken/git")
        (fun _ => .error (.failure "permission denied"))).2 = .error "permission denied" ∧
    "permission denied" ≠ spawnEnoentMessage ∧ "permission denied" ≠ gitNotFoundMessage :=
  ⟨rfl, by decide, by decide⟩

/-- C7 (amended): when the executable-override variable is set, only
the configured path is ever probed (the fallback candidate list is never
touched); a successful probe returns the configured path, and a failing
probe fails the whole resolution with the probe's error — which is the
executable-not-found message exactly when the probe fails with a spawn
ENOENT, e.g. a nonexistent path. -/
theorem detect_override_no_fallback (cfg : String) (probe : String → Except ProbeErr Unit)
    (hc : cfg ≠ "") :
    (probe cfg = .ok () → detectGitBinaryTrace (some cfg) probe = ([cfg], .ok cfg)) ∧
    (∀ e, probe cfg = .error e →
      detectGitBinaryTrace (some cfg) probe = ([cfg], .error (probeErrMessage e))) := by
  constructor
  · intro h
    simp [detectGitBinaryTrace, hc, h]
  · intro e h
    simp [detectGitBinaryTrace, hc, h]

/-- Witness for the C7 theorem: a nonexistent override path (probe
fails with ENOENT). -/
theorem detect_override_no_fallback_witness :
    ("/nonexistent/git" ≠ "") ∧
    detectGitBinaryTrace (some "/nonexistent/git") (fun _ => .error .enoent)
      = (["/nonexistent/git"], .error spawnEnoentMessage) :=
  ⟨by decide,
   (detect_override_no_fallback "/nonexistent/git" (fun _ => .error .enoent) (by decide)).2
     .enoent rfl⟩

/-- The clamp applied to `maxRepos` by `gitReposOverview`.  Finite JS
numbers are modelled as rationals (`Math.floor` is exact on them);
`none` stands for a non-finite number (NaN or an infinity):
`Number.isFinite(maxRepos) ? Math.max(1, Math.min(500, Math.floor(maxRepos))) : 200`. -/
def clampMaxRepos : Option ℚ → ℤ
  | none => 200
  | some q => max 1 (min 500 ⌊q⌋)

/-- The filesystem as seen by `scanGitRepos`: directory children of a
path (a failing `readdir` is an empty list) and the `.git` marker test
(`existsGitMarker`). -/
structure FsModel where
  subdirs : List String → List String
  marker : List String → Bool

/-- A discovered repository root, as pushed by `scanGitRepos`. -/
structure RepoHandle where
  path : List String
  relativePath : String
  name : String
deriving DecidableEq, Repr

/-- JS `path.basename(dir)`; for the scan root (empty relative path) this
is the root directory's own name. -/
def dirBaseName (rootName : String) (p : List String) : String :=
  p.getLastD rootName

/-- The record pushed for a discovered repository. -/
def mkRepoHandle (rootName : String) (p : List String) : RepoHandle :=
  { path := p, relativePath := String.intercalate "/" p, name := dirBaseName rootName p }

/-- The BFS loop of `scanGitRepos`, fuelled (the JS loop terminates on
any finite directory tree; the bound below holds for every fuel).
Mirrors the source: guard `queue.length && repos.length < maxRepos`,
skip already-seen resolved paths, skip beyond `maxDepth`, never treat a
directory named `.git` as ordinary, emit (and do not descend into) any
non-root directory with the marker, otherwise enqueue non-hidden child
directories one level deeper. -/
def scanLoop (fs : FsModel) (rootName : String) (maxDepth : Nat) (maxRepos : ℤ) :
    Nat → List (List String × Nat) → List RepoHandle → List (List String) → List RepoHandle
  | 0, _, repos, _ => repos
  | _ + 1, [], repos, _ => repos
  | fuel + 1, entry :: rest, repos, seen =>
    if (repos.length : ℤ) < maxRepos then
      let dir := entry.1
      let depth := entry.2
      if dir ∈ seen then scanLoop fs rootName maxDepth maxRepos fuel rest repos seen
      else
        let seen2 := dir :: seen
        if maxDepth < depth then scanLoop fs rootName maxDepth maxRepos fuel rest repos seen2
        else if dirBaseName rootName dir = ".git" then
          scanLoop fs rootName maxDepth maxRepos fuel rest repos seen2
        else if dir ≠ [] ∧ fs.marker dir then
          scanLoop fs rootName maxDepth maxRepos fuel rest
            (repos ++ [mkRepoHandle rootName dir]) seen2
        else
          let kids := (fs.subdirs dir).filter (fun nm => !nm.startsWith ".")
          scanLoop fs rootName maxDepth maxRepos fuel
            (rest ++ kids.map (fun nm => (dir ++ [nm], depth + 1))) repos seen2
    else repos

/-- Source `scanGitRepos(rootDir, {maxDepth, maxRepos})`: BFS from the root
(relative path `[]`) at depth 0. -/
def scanGitRepos (fs : FsModel) (rootName : String) (maxDepth : Nat) (maxRepos : ℤ)
    (fuel : Nat) : List RepoHandle :=
  scanLoop fs rootName maxDepth maxRepos fuel [([], 0)] [] []

theorem scanLoop_length_le (fs : FsModel) (rootName : String) (maxDepth : Nat)
    (maxRepos : ℤ) :
    ∀ (fuel : Nat) (queue : List (List String × Nat)) (repos : List RepoHandle)
      (seen : List (List String)), (repos.length : ℤ) ≤ maxRepos →
      ((scanLoop fs rootName maxDepth maxRepos fuel queue repos seen).length : ℤ) ≤ maxRepos := by
  intro fuel
  induction fuel with
  | zero =>
    intro queue repos seen h
    simpa [scanLoop] using h
  | succ n ih =>
    intro queue repos seen h
    cases queue with
    | nil => simpa [scanLoop] using h
    | cons entry rest =>
      rw [scanLoop]
      split
      · rename_i hlt
        dsimp only
        split_ifs with h1 h2 h3 h4
        · exact ih _ _ _ h
        · exact ih _ _ _ h
        · exact ih _ _ _ h
        · refine ih _ _ _ ?_
          simp only [List.length_append, List.length_cons, List.length_nil]
          push_cast
          omega
        · exact ih _ _ _ h
      · exact h

/-- C10: `gitReposOverview` clamps `maxRepos` to an integer between 1
and 500 inclusive (flooring fractional values), substitutes 200 for a
non-finite number, and the repository scan never yields more
repositories than the clamped limit (for any filesystem and any fuel). -/
theorem gitReposOverview_maxRepos_clamp (fs : FsModel) (rootName : String) (fuel : Nat)
    (maxReposArg : Option ℚ) :
    clampMaxRepos none = 200 ∧
    (∀ q, clampMaxRepos (some q) = max 1 (min 500 ⌊q⌋)) ∧
    1 ≤ clampMaxRepos maxReposArg ∧
    clampMaxRepos maxReposArg ≤ 500 ∧
    ((scanGitRepos fs rootName 4 (clampMaxRepos maxReposArg) fuel).length : ℤ)
      ≤ clampMaxRepos maxReposArg := by
  have h1 : 1 ≤ clampMaxRepos maxReposArg := by
    cases maxReposArg with
    | none => norm_num [clampMaxRepos]
    | some q => exact le_max_left 1 _
  have h500 : clampMaxRepos maxReposArg ≤ 500 := by
    cases maxReposArg with
    | none => norm_num [clampMaxRepos]
    | some q => exact max_le (by norm_num) (min_le_left _ _)
  refine ⟨rfl, fun q => rfl, h1, h500, ?_⟩
  exact scanLoop_length_le fs rootName 4 _ fuel _ _ _ (by simpa using le_trans zero_le_one h1)

end TasksMCP
